import Mathlib

/-!
Shallow embedding of the citybound market module
(`src/game/economy/market/mod.rs`): the `Deal`, `Offer`, `Market` and
`TripCostEstimator` actors of the decentralized marketplace.

Actor handlers are embedded as pure functions on the actor's state that
return the list of outgoing messages; a Rust `panic!` (or `unwrap` failure)
is embedded as `Option.none`.  Machine reals (`f32` amounts and distances)
are embedded as `ℚ`; the `as usize` cast is embedded as `Int.floor`
followed by `Int.toNat` (truncation toward zero with saturation at 0,
matching Rust float-to-usize casts for the nonnegative quantities used
here).
-/

/-! ## Identifier and value types -/

abbrev ResourceId := Nat
abbrev ResourceAmount := ℚ
abbrev HouseholdID := Nat
abbrev MemberIdx := Nat
abbrev OfferID := Nat
abbrev RoughLocationID := Nat
abbrev EvaluationRequesterID := Nat
abbrev Location := Nat
abbrev Duration := Nat
abbrev Instant := Nat
abbrev TimeOfDay := Int

/-- `Inventory`: entry list of `(resource, signed amount)` pairs, in
insertion order (the Rust `Inventory` compact dictionary iterated as
`Entry(resource, amount)` pairs). -/
abbrev Inventory := List (ResourceId × ResourceAmount)

/-- Modelled from the spec: `TimeOfDay::from_instant` lives in
`core::simulation`, outside this module's source; the spec only says
instants convert to time-of-day units.  Every claim treats the converted
value as a black box compared against a window bound, so the embedding
takes the instant's tick value itself. -/
def TimeOfDay.fromInstant (i : Instant) : TimeOfDay := (i : Int)

/-! ## Deal -/

structure Deal where
  duration : Duration
  delta : Inventory
deriving DecidableEq

/-- `Deal::main_given`: first resource in the delta with strictly positive
amount; the Rust code `unwrap`s (panics) when none exists, embedded as
`none`. -/
def Deal.main_given (d : Deal) : Option ResourceId :=
  (d.delta.filterMap (fun e => if 0 < e.2 then some e.1 else none)).head?

/-! ## Offer -/

structure Offer where
  id : OfferID
  offerer : HouseholdID
  offering_member : MemberIdx
  location : RoughLocationID
  «from» : TimeOfDay
  «to» : TimeOfDay
  deal : Deal
  users : List (HouseholdID × Option MemberIdx)
deriving DecidableEq

structure EvaluatedDeal where
  offer : OfferID
  deal : Deal
  «from» : TimeOfDay
  «to» : TimeOfDay
deriving DecidableEq

structure EvaluatedSearchResult where
  resource : ResourceId
  evaluated_deals : List EvaluatedDeal
deriving DecidableEq

def emptyResult (resource : ResourceId) : EvaluatedSearchResult :=
  { resource, evaluated_deals := [] }

/-- Effect of one `Offer::evaluate` call: either a `TripCostEstimator` is
spawned with these arguments, or `on_result` is sent to the requester
immediately. -/
inductive EvaluateEffect where
  | spawned (requester : EvaluationRequesterID)
      (rough_source rough_destination : RoughLocationID)
      (base_result : EvaluatedSearchResult)
  | replied (requester : EvaluationRequesterID) (result : EvaluatedSearchResult)
deriving DecidableEq

/-- `Offer::evaluate`: valid iff `time_of_day(instant) < self.to` (the
lower bound `from` is not consulted); both branches call
`self.deal.main_given()`, which panics (`none`) on a deal with no positive
entry. -/
def Offer.evaluate (o : Offer) (instant : Instant) (location : RoughLocationID)
    (requester : EvaluationRequesterID) : Option EvaluateEffect :=
  match o.deal.main_given with
  | none => none
  | some resource =>
    if TimeOfDay.fromInstant instant < o.«to» then
      some (.spawned requester location o.location
        { resource
          evaluated_deals :=
            [{ offer := o.id, deal := o.deal, «from» := o.«from», «to» := o.«to» }] })
    else
      some (.replied requester (emptyResult resource))

/-- `Offer::started_using`: push the pair onto the `users` vector. -/
def Offer.started_using (o : Offer) (household : HouseholdID)
    (member : Option MemberIdx) : Offer :=
  { o with users := o.users ++ [(household, member)] }

/-- `Offer::stopped_using`: retain the users whose household or member
differs from the given pair. -/
def Offer.stopped_using (o : Offer) (household : HouseholdID)
    (member : Option MemberIdx) : Offer :=
  { o with users := o.users.filter (fun p => p.1 != household || p.2 != member) }

/-! ## Market -/

/-- `CDict::get` on the resource-indexed offer dictionary: value of the
first entry with the given key. -/
def dictGet (d : List (ResourceId × List OfferID)) (r : ResourceId) :
    Option (List OfferID) :=
  match d with
  | [] => none
  | (k, v) :: rest => if k == r then some v else dictGet rest r

/-- `CDict::push_at`: append to the existing entry's vector, or add a new
entry at the end. -/
def dictPushAt (d : List (ResourceId × List OfferID)) (r : ResourceId)
    (o : OfferID) : List (ResourceId × List OfferID) :=
  match d with
  | [] => [(r, [o])]
  | (k, v) :: rest =>
    if k == r then (k, v ++ [o]) :: rest else (k, v) :: dictPushAt rest r o

/-- `CDict::get_mut` + in-place mutation: apply `f` to the first entry with
the given key, leave the dictionary unchanged when the key is absent. -/
def dictUpdateAt (d : List (ResourceId × List OfferID)) (r : ResourceId)
    (f : List OfferID → List OfferID) : List (ResourceId × List OfferID) :=
  match d with
  | [] => []
  | (k, v) :: rest =>
    if k == r then (k, f v) :: rest else (k, v) :: dictUpdateAt rest r f

structure Market where
  offers_by_resource : List (ResourceId × List OfferID)
deriving DecidableEq

inductive MarketOut where
  | withdrawal_confirmed (offer : OfferID)
deriving DecidableEq

/-- `Market::register`: append the offer id under the resource. -/
def Market.register (m : Market) (resource : ResourceId) (offer : OfferID) :
    Market :=
  { offers_by_resource := dictPushAt m.offers_by_resource resource offer }

/-- `Market::withdraw`: retain only other offer ids in the resource's list
(if indexed), then unconditionally confirm the withdrawal to the offer. -/
def Market.withdraw (m : Market) (resource : ResourceId) (offer : OfferID) :
    Market × List MarketOut :=
  ({ offers_by_resource :=
      dictUpdateAt m.offers_by_resource resource
        (fun offers => offers.filter (fun o => o != offer)) },
   [MarketOut.withdrawal_confirmed offer])

/-- `Market::search`: look the resource up, call `evaluate` on every
indexed offer actor, and report `offers.len()` (or `0` when unindexed) to
the requester via `expect_n_results`.  `offers` maps an offer id to the
state of the live offer actor it addresses (`none` when no such actor
exists); a panic inside any evaluation is propagated as `none`. -/
def Market.search (m : Market) (instant : Instant) (location : RoughLocationID)
    (resource : ResourceId) (requester : EvaluationRequesterID)
    (offers : OfferID → Option Offer) : Option (Nat × List EvaluateEffect) :=
  match dictGet m.offers_by_resource resource with
  | some ids =>
    (ids.mapM fun oid =>
        (offers oid).bind fun o => o.evaluate instant location requester).map
      fun effects => (ids.length, effects)
  | none => some (0, [])

/-! ## TripCostEstimator -/

structure TripCostEstimator where
  requester : EvaluationRequesterID
  rough_source : RoughLocationID
  source : Option Location
  rough_destination : RoughLocationID
  destination : Option Location
  n_resolved : Nat
  base_result : EvaluatedSearchResult
deriving DecidableEq

/-- Outgoing messages of a `TripCostEstimator`: a distance request, a
reply to an evaluation requester, or the self-destroying `done`. -/
inductive TCEOut where
  | get_distance_to (source destination : Location)
  | on_result (requester : EvaluationRequesterID) (result : EvaluatedSearchResult)
  | done
deriving DecidableEq

/-- `TripCostEstimator::spawn`: fresh state after issuing the two
location-resolution requests (both slots empty, counter `0`). -/
def TripCostEstimator.spawn (requester : EvaluationRequesterID)
    (rough_source rough_destination : RoughLocationID)
    (base_result : EvaluatedSearchResult) : TripCostEstimator :=
  { requester, rough_source, source := none, rough_destination,
    destination := none, n_resolved := 0, base_result }

/-- Tail of `location_resolved` after the slot store: bump `n_resolved`,
then either request the distance (both slots resolved), short-circuit with
an empty reply and die (second reply, at least one slot unresolvable), or
keep waiting. -/
def TripCostEstimator.afterStore (e0 : TripCostEstimator) :
    TripCostEstimator × List TCEOut :=
  let e := { e0 with n_resolved := e0.n_resolved + 1 }
  match e.source, e.destination with
  | some s, some d => (e, [TCEOut.get_distance_to s d])
  | _, _ =>
    if e.n_resolved = 2 then
      (e, [TCEOut.on_result e.requester (emptyResult e.base_result.resource),
           TCEOut.done])
    else
      (e, [])

/-- `TripCostEstimator::location_resolved`: store the (possibly absent)
location into the slot whose rough id matches — the source slot is tested
first — and panic (`none`) when neither matches. -/
def TripCostEstimator.location_resolved (e : TripCostEstimator)
    (rough_location : RoughLocationID) (location : Option Location) :
    Option (TripCostEstimator × List TCEOut) :=
  if e.rough_source = rough_location then
    some (TripCostEstimator.afterStore { e with source := location })
  else if e.rough_destination = rough_location then
    some (TripCostEstimator.afterStore { e with destination := location })
  else
    none

def assumedAvgSpeed : ℚ := 10

/-- `(distance / ASSUMED_AVG_SPEED) as usize`: truncated quotient
(floor composed with `toNat` agrees with Rust's saturating float-to-usize
cast on every quotient that is not in `(-1, 0)`, and distances are
nonnegative). -/
def estimatedTravelTime (distance : ℚ) : Duration :=
  (⌊distance / assumedAvgSpeed⌋).toNat

/-- Travel adjustment of one evaluated deal by travel time `t`: duration
up by `t`, both window bounds down by `t`.  Used to state what
`on_distance` does to each deal. -/
def travelAdjust (t : Duration) (ed : EvaluatedDeal) : EvaluatedDeal :=
  { ed with
    deal := { ed.deal with duration := ed.deal.duration + t }
    «from» := ed.«from» - (t : Int)
    «to» := ed.«to» - (t : Int) }

/-- `TripCostEstimator::on_distance`: with a distance, shift every base
deal by the estimated travel time (duration up, window down); without one,
reply empty.  Either way reply once and die. -/
def TripCostEstimator.on_distance (e : TripCostEstimator)
    (maybe_distance : Option ℚ) : List TCEOut :=
  let result :=
    match maybe_distance with
    | some distance =>
      { e.base_result with
        evaluated_deals := e.base_result.evaluated_deals.map fun evaluated_deal =>
          let estimated_travel_time := estimatedTravelTime distance
          { evaluated_deal with
            deal := { evaluated_deal.deal with
              duration := evaluated_deal.deal.duration + estimated_travel_time }
            «from» := evaluated_deal.«from» - (estimated_travel_time : Int)
            «to» := evaluated_deal.«to» - (estimated_travel_time : Int) } }
    | none => emptyResult e.base_result.resource
  [TCEOut.on_result e.requester result, TCEOut.done]

/-! ## Runs of one estimator

The runtime delivers exactly the two location replies (tagged with the
rough source and rough destination, in either order) and, exactly when the
estimator requested one, a distance reply.  `EnvChoice` packs the
runtime's choices for one estimator: the delivery order, the two resolved
locations (possibly absent) and the distance (possibly absent). -/

structure EnvChoice where
  swap : Bool
  l1 : Option Location
  l2 : Option Location
  maybe_distance : Option ℚ

def isGetDistance : TCEOut → Bool
  | .get_distance_to _ _ => true
  | _ => false

def isOnResult : TCEOut → Bool
  | .on_result _ _ => true
  | _ => false

def isOnResultTo (requester : EvaluationRequesterID) : TCEOut → Bool
  | .on_result r _ => r == requester
  | _ => false

/-- Complete delivery schedule for one estimator: the two location replies
in the order chosen by `env`, then the distance reply exactly when a
distance request was emitted.  `none` when a handler panicked. -/
def runEstimator (e : TripCostEstimator) (env : EnvChoice) :
    Option (List TCEOut) :=
  let first := if env.swap then (e.rough_destination, env.l2)
               else (e.rough_source, env.l1)
  let second := if env.swap then (e.rough_source, env.l1)
                else (e.rough_destination, env.l2)
  match e.location_resolved first.1 first.2 with
  | none => none
  | some (e1, outs1) =>
    match e1.location_resolved second.1 second.2 with
    | none => none
    | some (e2, outs2) =>
      if (outs1 ++ outs2).any isGetDistance then
        some (outs1 ++ outs2 ++ e2.on_distance env.maybe_distance)
      else
        some (outs1 ++ outs2)

/-- Eventual estimator-pipeline output of one `Offer::evaluate` effect: an
immediate reply is itself, a spawned estimator contributes its run. -/
def EvaluateEffect.eventualOuts (env : EnvChoice) :
    EvaluateEffect → Option (List TCEOut)
  | .replied requester result => some [TCEOut.on_result requester result]
  | .spawned requester rough_source rough_destination base_result =>
    runEstimator
      (TripCostEstimator.spawn requester rough_source rough_destination
        base_result) env

/-- Total number of `on_result` messages the requester eventually receives
from a list of evaluate effects, the `i`-th effect's estimator run driven
by `envs i`. -/
def effectsEventualCount (requester : EvaluationRequesterID)
    (envs : Nat → EnvChoice) : List EvaluateEffect → Nat → Option Nat
  | [], _ => some 0
  | eff :: rest, i =>
    match eff.eventualOuts (envs i) with
    | none => none
    | some outs =>
      (effectsEventualCount requester envs rest (i + 1)).map
        fun n => outs.countP (isOnResultTo requester) + n

/-! ## Concrete fixtures (used only to instantiate theorems) -/

def sampleDeal : Deal := { duration := 4, delta := [(3, 5), (7, -2)] }

def sampleOffer : Offer :=
  { id := 11, offerer := 1, offering_member := 0, location := 2,
    «from» := 8, «to» := 18, deal := sampleDeal, users := [] }

def sampleOfferUsing : Offer := { sampleOffer with users := [(1, none)] }

def sampleBase : EvaluatedSearchResult :=
  { resource := 3,
    evaluated_deals := [{ offer := 11, deal := sampleDeal, «from» := 8, «to» := 18 }] }

def sampleMarket : Market := { offers_by_resource := [(3, [11])] }

def sampleMarket2 : Market :=
  { offers_by_resource := [(3, [11, 12, 11]), (4, [11])] }

def sampleEnv : EnvChoice :=
  { swap := false, l1 := some 0, l2 := some 1, maybe_distance := some 35 }

/-! ## Helper lemmas -/

/-- Head of the positive-filtered delta as a first-positive-entry
characterization (the `some` case). -/
lemma firstPositive_some_iff (l : Inventory) (r : ResourceId) :
    (l.filterMap (fun e => if 0 < e.2 then some e.1 else none)).head? = some r ↔
    ∃ pre a post, l = pre ++ (r, a) :: post ∧ 0 < a ∧ ∀ e ∈ pre, e.2 ≤ 0 := by
  induction l with
  | nil => simp
  | cons hd tl ih =>
    obtain ⟨hr, ha⟩ := hd
    by_cases hpos : 0 < ha
    · simp only [List.filterMap_cons, if_pos hpos, List.head?_cons,
        Option.some.injEq]
      constructor
      · rintro rfl
        exact ⟨[], ha, tl, rfl, hpos, by simp⟩
      · rintro ⟨pre, a, post, heq, hapos, hpre⟩
        cases pre with
        | nil =>
          simp only [List.nil_append, List.cons.injEq, Prod.mk.injEq] at heq
          exact heq.1.1
        | cons p pre2 =>
          exfalso
          simp only [List.cons_append, List.cons.injEq] at heq
          have hple : p.2 ≤ 0 := hpre p (by simp)
          rw [← heq.1] at hple
          exact absurd hpos (not_lt.mpr hple)
    · simp only [List.filterMap_cons, if_neg hpos]
      rw [ih]
      constructor
      · rintro ⟨pre, a, post, rfl, hapos, hpre⟩
        refine ⟨(hr, ha) :: pre, a, post, rfl, hapos, ?_⟩
        rintro e he
        rcases List.mem_cons.mp he with rfl | he2
        · exact le_of_not_lt hpos
        · exact hpre e he2
      · rintro ⟨pre, a, post, heq, hapos, hpre⟩
        cases pre with
        | nil =>
          exfalso
          simp only [List.nil_append, List.cons.injEq, Prod.mk.injEq] at heq
          exact absurd (heq.1.2 ▸ hapos) hpos
        | cons p pre2 =>
          simp only [List.cons_append, List.cons.injEq] at heq
          exact ⟨pre2, a, post, heq.2, hapos, fun e he => hpre e (by simp [he])⟩

/-- Head of the positive-filtered delta is absent exactly when no entry is
positive. -/
lemma firstPositive_none_iff (l : Inventory) :
    (l.filterMap (fun e => if 0 < e.2 then some e.1 else none)).head? = none ↔
    ∀ e ∈ l, e.2 ≤ 0 := by
  induction l with
  | nil => simp
  | cons hd tl ih =>
    by_cases hpos : 0 < hd.2
    · simp [List.filterMap_cons, if_pos hpos]
      exact fun h => absurd hpos (not_lt.mpr h)
    · simp [List.filterMap_cons, if_neg hpos, ih, le_of_not_lt hpos]

/-- Any complete run of a freshly spawned estimator succeeds, emits exactly
one `on_result` (addressed to the spawning requester), and ends in `done`. -/
lemma runEstimator_spawn (requester : EvaluationRequesterID)
    (rs rd : RoughLocationID) (base : EvaluatedSearchResult) (env : EnvChoice) :
    ∃ outs,
      runEstimator (TripCostEstimator.spawn requester rs rd base) env = some outs ∧
      outs.countP isOnResult = 1 ∧
      outs.countP (isOnResultTo requester) = 1 ∧
      outs.getLast? = some TCEOut.done := by
  obtain ⟨swap, l1, l2, md⟩ := env
  by_cases hrr : rs = rd
  · subst hrr
    cases swap <;> cases l1 <;> cases l2 <;> cases md <;>
      simp [runEstimator, TripCostEstimator.location_resolved,
        TripCostEstimator.afterStore, TripCostEstimator.spawn,
        TripCostEstimator.on_distance, isGetDistance, isOnResult, isOnResultTo,
        List.countP_cons, List.countP_nil, emptyResult, List.getLast?]
  · cases swap <;> cases l1 <;> cases l2 <;> cases md <;>
      simp [runEstimator, TripCostEstimator.location_resolved,
        TripCostEstimator.afterStore, TripCostEstimator.spawn,
        TripCostEstimator.on_distance, isGetDistance, isOnResult, isOnResultTo,
        List.countP_cons, List.countP_nil, emptyResult, List.getLast?, hrr,
        Ne.symm hrr]

/-! ## Claim theorems -/

/-- C3: for every Deal `D`, `D.main_given()` returns the first resource in
`D`'s delta (insertion order) whose amount is strictly positive, and it
fails (panics, embedded as `none`) precisely when no entry of `D`'s delta
has a strictly positive amount. -/
theorem deal_main_given_first_positive (d : Deal) :
    (∀ r, d.main_given = some r ↔
      ∃ pre a post, d.delta = pre ++ (r, a) :: post ∧ 0 < a ∧
        ∀ e ∈ pre, e.2 ≤ 0) ∧
    (d.main_given = none ↔ ∀ e ∈ d.delta, e.2 ≤ 0) :=
  ⟨fun r => firstPositive_some_iff d.delta r, firstPositive_none_iff d.delta⟩

theorem deal_main_given_first_positive_witness :
    Deal.main_given { duration := 3, delta := [(7, -1), (3, 5), (4, 2)] } = some 3 ∧
    Deal.main_given { duration := 3, delta := [(7, -1), (4, 0)] } = none := by
  constructor
  · exact (deal_main_given_first_positive _).1 3 |>.mpr
      ⟨[(7, -1)], 5, [(4, 2)], rfl, by decide, by decide⟩
  · exact (deal_main_given_first_positive _).2.mpr (by decide)

/-- C2: every spawned TripCostEstimator, on any complete delivery schedule
(either order of the two location replies, any resolution outcomes, any
distance outcome), emits exactly one `on_result` — addressed to its stored
requester — and its final action is `done` (self-destruction). -/
theorem tce_exactly_one_result (requester : EvaluationRequesterID)
    (rough_source rough_destination : RoughLocationID)
    (base_result : EvaluatedSearchResult) (env : EnvChoice) :
    ∃ outs,
      runEstimator
        (TripCostEstimator.spawn requester rough_source rough_destination
          base_result) env = some outs ∧
      outs.countP isOnResult = 1 ∧
      outs.countP (isOnResultTo requester) = 1 ∧
      outs.getLast? = some TCEOut.done :=
  runEstimator_spawn requester rough_source rough_destination base_result env

/-- C7: a `location_resolved` reply tagged with a rough location matching
neither the stored rough source nor the stored rough destination panics
(embedded as `none`); a reply tagged with either stored rough location is
handled without panic. -/
theorem tce_location_resolved_unknown_tag_panics (e : TripCostEstimator)
    (rough_location : RoughLocationID) (location : Option Location) :
    (rough_location ≠ e.rough_source → rough_location ≠ e.rough_destination →
      e.location_resolved rough_location location = none) ∧
    (rough_location = e.rough_source ∨ rough_location = e.rough_destination →
      (e.location_resolved rough_location location).isSome) := by
  constructor
  · intro h1 h2
    simp [TripCostEstimator.location_resolved, Ne.symm h1, Ne.symm h2]
  · intro h
    by_cases hs : e.rough_source = rough_location
    · simp [TripCostEstimator.location_resolved, hs]
    · rcases h with h | h
      · exact absurd h.symm hs
      · simp [TripCostEstimator.location_resolved, hs, h.symm]

theorem tce_location_resolved_unknown_tag_panics_witness :
    (TripCostEstimator.spawn 5 1 2 sampleBase).location_resolved 9 none = none ∧
    ((TripCostEstimator.spawn 5 1 2 sampleBase).location_resolved 1 none).isSome := by
  constructor
  · exact (tce_location_resolved_unknown_tag_panics _ 9 none).1
      (by decide) (by decide)
  · exact (tce_location_resolved_unknown_tag_panics _ 1 none).2 (Or.inl rfl)

/-- C9: an estimator spawned with equal rough source and rough destination
stores every reply into the source slot (the source branch is tested
first), leaves the destination slot absent, and after the second reply
sends the requester an empty result and dies, never having requested a
distance — even when both replies resolve successfully. -/
theorem tce_same_rough_locations (requester : EvaluationRequesterID)
    (rough : RoughLocationID) (base_result : EvaluatedSearchResult)
    (l1 l2 : Option Location) :
    ∃ e1,
      (TripCostEstimator.spawn requester rough rough
        base_result).location_resolved rough l1 = some (e1, []) ∧
      e1.source = l1 ∧ e1.destination = none ∧
      e1.location_resolved rough l2 =
        some ({ e1 with source := l2, n_resolved := 2 },
          [TCEOut.on_result requester (emptyResult base_result.resource),
           TCEOut.done]) := by
  refine ⟨{ TripCostEstimator.spawn requester rough rough base_result with
    source := l1, n_resolved := 1 }, ?_, rfl, rfl, ?_⟩ <;>
    cases l1 <;> cases l2 <;>
      simp [TripCostEstimator.spawn, TripCostEstimator.location_resolved,
        TripCostEstimator.afterStore, emptyResult]

/-- C5: with a computed distance `D`, every deal in the estimator's final
result is the corresponding base (pre-travel) deal with its duration
increased by the estimated travel time `D / assumedAvgSpeed` (speed fixed
at 10 m/s) and both window bounds `from` and `to` decreased by that same
travel time. -/
theorem tce_on_distance_travel_adjusts (e : TripCostEstimator) (D : ℚ) :
    assumedAvgSpeed = 10 ∧
    ∃ r, e.on_distance (some D) =
        [TCEOut.on_result e.requester r, TCEOut.done] ∧
      r.resource = e.base_result.resource ∧
      r.evaluated_deals.length = e.base_result.evaluated_deals.length ∧
      ∀ i : Nat, r.evaluated_deals[i]? =
        (e.base_result.evaluated_deals[i]?).map
          (travelAdjust (estimatedTravelTime D)) := by
  refine ⟨rfl,
    { e.base_result with
      evaluated_deals :=
        e.base_result.evaluated_deals.map (travelAdjust (estimatedTravelTime D)) },
    ?_, rfl, by simp, fun i => List.getElem?_map _ _ i⟩
  simp [TripCostEstimator.on_distance, travelAdjust]

/-- C10: the travel time applied by `on_distance` is the quotient
`distance / 10` truncated to an integer; for a computed distance `D` with
`0 ≤ D < 10` it is `0` and the final result is the base result unchanged,
validity window included. -/
theorem tce_on_distance_short_distance (e : TripCostEstimator) (D : ℚ)
    (h0 : 0 ≤ D) (h10 : D < 10) :
    estimatedTravelTime D = (⌊D / assumedAvgSpeed⌋).toNat ∧
    estimatedTravelTime D = 0 ∧
    e.on_distance (some D) =
      [TCEOut.on_result e.requester e.base_result, TCEOut.done] := by
  have ht : estimatedTravelTime D = 0 := by
    unfold estimatedTravelTime assumedAvgSpeed
    have h1 : (0 : ℚ) ≤ D / 10 := by positivity
    have h2 : D / 10 < 1 := (div_lt_one (by norm_num)).mpr h10
    rw [Int.floor_eq_zero_iff.mpr ⟨h1, h2⟩]
    rfl
  refine ⟨rfl, ht, ?_⟩
  simp [TripCostEstimator.on_distance, ht, List.map_id']

theorem tce_on_distance_short_distance_witness :
    (0 : ℚ) ≤ 7 ∧ (7 : ℚ) < 10 ∧
    estimatedTravelTime 7 = 0 ∧
    (TripCostEstimator.spawn 5 1 2 sampleBase).on_distance (some 7) =
      [TCEOut.on_result 5 sampleBase, TCEOut.done] := by
  have h := tce_on_distance_short_distance
    (TripCostEstimator.spawn 5 1 2 sampleBase) 7 (by decide) (by decide)
  exact ⟨by decide, by decide, h.2.1, h.2.2⟩

/-- C4: `Offer::evaluate` spawns a TripCostEstimator carrying this offer's
single-deal result when `time_of_day(instant) < to` (sending nothing to
the requester directly), and otherwise replies immediately with an
empty-deals result for the offer's main resource, spawning nothing;
validity is tested only against `to`, so an instant before `from` still
takes the valid branch. -/
theorem offer_evaluate_branches (o : Offer) (instant : Instant)
    (location : RoughLocationID) (requester : EvaluationRequesterID)
    (r : ResourceId) (hmg : o.deal.main_given = some r) :
    (TimeOfDay.fromInstant instant < o.«to» →
      o.evaluate instant location requester =
        some (EvaluateEffect.spawned requester location o.location
          { resource := r,
            evaluated_deals :=
              [{ offer := o.id, deal := o.deal, «from» := o.«from», «to» := o.«to» }] })) ∧
    (¬ TimeOfDay.fromInstant instant < o.«to» →
      o.evaluate instant location requester =
        some (EvaluateEffect.replied requester (emptyResult r))) ∧
    (TimeOfDay.fromInstant instant < o.«from» →
      TimeOfDay.fromInstant instant < o.«to» →
      ∃ base, o.evaluate instant location requester =
        some (EvaluateEffect.spawned requester location o.location base)) := by
  have h1 : TimeOfDay.fromInstant instant < o.«to» →
      o.evaluate instant location requester =
        some (EvaluateEffect.spawned requester location o.location
          { resource := r,
            evaluated_deals :=
              [{ offer := o.id, deal := o.deal, «from» := o.«from», «to» := o.«to» }] }) :=
    fun hv => by simp [Offer.evaluate, hmg, hv]
  exact ⟨h1, fun hv => by simp [Offer.evaluate, hmg, hv], fun _ hv => ⟨_, h1 hv⟩⟩

theorem offer_evaluate_branches_witness :
    sampleOffer.deal.main_given = some 3 ∧
    (7 : Int) < sampleOffer.«from» ∧
    sampleOffer.evaluate 7 9 5 =
      some (EvaluateEffect.spawned 5 9 sampleOffer.location
        { resource := 3,
          evaluated_deals :=
            [{ offer := sampleOffer.id, deal := sampleOffer.deal,
               «from» := sampleOffer.«from», «to» := sampleOffer.«to» }] }) ∧
    sampleOffer.evaluate 19 9 5 =
      some (EvaluateEffect.replied 5 (emptyResult 3)) := by
  refine ⟨by decide, by decide, ?_, ?_⟩
  · exact (offer_evaluate_branches sampleOffer 7 9 5 3 (by decide)).1 (by decide)
  · exact (offer_evaluate_branches sampleOffer 19 9 5 3 (by decide)).2.1 (by decide)
lemma dictGet_updateAt_self (d : List (ResourceId × List OfferID))
    (r : ResourceId) (f : List OfferID → List OfferID) :
    dictGet (dictUpdateAt d r f) r = (dictGet d r).map f := by
  induction d with
  | nil => rfl
  | cons kv rest ih =>
    obtain ⟨k, v⟩ := kv
    by_cases hk : k = r
    · subst hk
      simp [dictGet, dictUpdateAt]
    · simp [dictGet, dictUpdateAt, hk, ih]

lemma dictGet_updateAt_other (d : List (ResourceId × List OfferID))
    (r r' : ResourceId) (f : List OfferID → List OfferID) (h : r' ≠ r) :
    dictGet (dictUpdateAt d r f) r' = dictGet d r' := by
  induction d with
  | nil => rfl
  | cons kv rest ih =>
    obtain ⟨k, v⟩ := kv
    by_cases hk : k = r
    · subst hk
      simp [dictGet, dictUpdateAt, Ne.symm h]
    · by_cases hk2 : k = r'
      · subst hk2
        simp [dictGet, dictUpdateAt, hk]
      · simp [dictGet, dictUpdateAt, hk, hk2, ih]

/-- C6: `Market::withdraw` removes every occurrence of the offer id from
the list indexed under the resource (other resources' lists untouched) and
sends `withdrawal_confirmed` back unconditionally — also when the offer
was absent or the resource unindexed. -/
theorem market_withdraw_removes_and_confirms (m : Market) (resource : ResourceId)
    (offer : OfferID) :
    (m.withdraw resource offer).2 = [MarketOut.withdrawal_confirmed offer] ∧
    dictGet (m.withdraw resource offer).1.offers_by_resource resource =
      (dictGet m.offers_by_resource resource).map
        (fun offers => offers.filter (fun o => o != offer)) ∧
    (∀ r, r ≠ resource →
      dictGet (m.withdraw resource offer).1.offers_by_resource r =
        dictGet m.offers_by_resource r) ∧
    (∀ l, dictGet (m.withdraw resource offer).1.offers_by_resource resource =
        some l → offer ∉ l) := by
  refine ⟨rfl, dictGet_updateAt_self m.offers_by_resource resource _,
    fun r h => dictGet_updateAt_other m.offers_by_resource resource r _ h, ?_⟩
  intro l hl
  simp only [Market.withdraw] at hl
  rw [dictGet_updateAt_self] at hl
  cases ho : dictGet m.offers_by_resource resource with
  | none => rw [ho] at hl; cases hl
  | some l0 =>
    rw [ho] at hl
    simp only [Option.map_some', Option.some.injEq] at hl
    subst hl
    intro hmem
    simp [List.mem_filter] at hmem

theorem market_withdraw_removes_and_confirms_witness :
    (sampleMarket2.withdraw 3 11).2 = [MarketOut.withdrawal_confirmed 11] ∧
    dictGet (sampleMarket2.withdraw 3 11).1.offers_by_resource 3 = some [12] ∧
    dictGet (sampleMarket2.withdraw 3 11).1.offers_by_resource 4 = some [11] ∧
    11 ∉ [12] := by
  have h := market_withdraw_removes_and_confirms sampleMarket2 3 11
  refine ⟨h.1, ?_, ?_, ?_⟩
  · rw [h.2.1]; decide
  · rw [h.2.2.1 4 (by decide)]; decide
  · exact h.2.2.2 [12] (by rw [h.2.1]; decide)
/-- C8 counterexample: on an offer already used by `(1, none)`,
`started_using (1, none)` followed by `stopped_using (1, none)` empties
the usage set instead of restoring it — `stopped_using` removes all
matching entries, the pre-existing one included. -/
theorem started_stopped_roundtrip_counterexample :
    ((sampleOfferUsing.started_using 1 none).stopped_using 1 none).users ≠
      sampleOfferUsing.users := by
  decide

/-- C8 (amended): when the pair is not already in the usage set,
`started_using` followed by `stopped_using` with that pair restores the
usage set; and `stopped_using` removes exactly (all) the entries whose
household and member both equal the given pair. -/
theorem started_stopped_using_amended (o : Offer) (household : HouseholdID)
    (member : Option MemberIdx) :
    ((household, member) ∉ o.users →
      ((o.started_using household member).stopped_using household member).users =
        o.users) ∧
    (∀ p : HouseholdID × Option MemberIdx,
      ((o.stopped_using household member).users.count p =
        if p = (household, member) then 0 else o.users.count p)) := by
  constructor
  · intro hnot
    simp only [Offer.started_using, Offer.stopped_using, List.filter_append]
    have h1 : List.filter (fun p => p.1 != household || p.2 != member)
        [(household, member)] = [] := by simp
    rw [h1, List.append_nil]
    apply List.filter_eq_self.mpr
    intro p hp
    have hne : p ≠ (household, member) := fun heq => hnot (heq ▸ hp)
    simp only [bne_iff_ne, Bool.or_eq_true, decide_eq_true_eq, ne_eq]
    by_cases hh : p.1 = household
    · exact Or.inr fun hm => hne (Prod.ext hh hm)
    · exact Or.inl hh
  · intro p
    show (o.users.filter _).count p = _
    by_cases hp : p = (household, member)
    · subst hp
      rw [if_pos rfl, List.count_eq_zero]
      intro hmem
      have h3 := (List.mem_filter.mp hmem).2
      simp at h3
    · rw [if_neg hp, List.count_filter]
      simp only [bne_iff_ne, Bool.or_eq_true, decide_eq_true_eq, ne_eq]
      by_cases hh : p.1 = household
      · exact Or.inr fun hm => hp (Prod.ext hh hm)
      · exact Or.inl hh

theorem started_stopped_using_amended_witness :
    (2, some 0) ∉ sampleOfferUsing.users ∧
    ((sampleOfferUsing.started_using 2 (some 0)).stopped_using 2 (some 0)).users =
      sampleOfferUsing.users ∧
    (sampleOfferUsing.stopped_using 1 none).users.count (1, none) = 0 := by
  have h := started_stopped_using_amended sampleOfferUsing 2 (some 0)
  have h2 := started_stopped_using_amended sampleOfferUsing 1 none
  exact ⟨by decide, h.1 (by decide), by rw [h2.2 (1, none)]; decide⟩
/-- One evaluation (of an offer whose deal has a positive entry) eventually
yields exactly one `on_result` to the requester, whichever branch is taken
and whatever the estimator environment does. -/
lemma evaluate_eventual_one (o : Offer) (instant : Instant)
    (location : RoughLocationID) (requester : EvaluationRequesterID)
    (hmg : o.deal.main_given.isSome) (env : EnvChoice) :
    ∃ eff, o.evaluate instant location requester = some eff ∧
      ∃ outs, eff.eventualOuts env = some outs ∧
        outs.countP (isOnResultTo requester) = 1 := by
  obtain ⟨r, hr⟩ := Option.isSome_iff_exists.mp hmg
  by_cases hv : TimeOfDay.fromInstant instant < o.«to»
  · refine ⟨EvaluateEffect.spawned requester location o.location
      { resource := r,
        evaluated_deals :=
          [{ offer := o.id, deal := o.deal, «from» := o.«from», «to» := o.«to» }] },
      by simp [Offer.evaluate, hr, hv], ?_⟩
    obtain ⟨outs, h1, _, h3, _⟩ := runEstimator_spawn requester location o.location
      { resource := r,
        evaluated_deals :=
          [{ offer := o.id, deal := o.deal, «from» := o.«from», «to» := o.«to» }] } env
    exact ⟨outs, h1, h3⟩
  · refine ⟨EvaluateEffect.replied requester (emptyResult r),
      by simp [Offer.evaluate, hr, hv],
      [TCEOut.on_result requester (emptyResult r)], rfl, ?_⟩
    simp [isOnResultTo, List.countP_cons]

/-- The evaluation loop of `Market::search` over a list of indexed offer
ids, all alive with well-formed deals, succeeds and eventually delivers
exactly one result per id. -/
lemma search_loop_count (instant : Instant) (location : RoughLocationID)
    (requester : EvaluationRequesterID) (offers : OfferID → Option Offer)
    (envs : Nat → EnvChoice) :
    ∀ (ids : List OfferID) (i : Nat),
      (∀ oid ∈ ids, ∃ o, offers oid = some o ∧ o.deal.main_given.isSome) →
      ∃ effs,
        (ids.mapM fun oid => (offers oid).bind fun o =>
          o.evaluate instant location requester) = some effs ∧
        effectsEventualCount requester envs effs i = some ids.length := by
  intro ids
  induction ids with
  | nil => exact fun i h => ⟨[], rfl, rfl⟩
  | cons oid rest ih =>
    intro i h
    obtain ⟨o, ho, hmg⟩ := h oid (by simp)
    obtain ⟨eff, heff, outs, houts, hcount⟩ :=
      evaluate_eventual_one o instant location requester hmg (envs i)
    obtain ⟨effs, heffs, hcnt⟩ := ih (i + 1) fun oid2 h2 => h oid2 (by simp [h2])
    refine ⟨eff :: effs, ?_, ?_⟩
    · rw [List.mapM_cons]
      have hloop : List.mapM.loop
          (fun oid => (offers oid).bind fun o =>
            o.evaluate instant location requester) rest [] = some effs := heffs
      simp [ho, heff, hloop]
    · simp only [effectsEventualCount, houts, hcnt, hcount, Option.map_some',
        List.length_cons, Option.some.injEq]
      omega

/-- C1: `Market::search` reports to the requester an expected count equal
to the number of offers indexed under the resource (`0` when unindexed),
and — provided every indexed offer addresses a live offer actor whose deal
has a positive entry — that count equals the number of `on_result` calls
the requester eventually receives for the search, for any behaviour of the
location/distance environment. -/
theorem market_search_expected_count (m : Market) (instant : Instant)
    (location : RoughLocationID) (resource : ResourceId)
    (requester : EvaluationRequesterID) (offers : OfferID → Option Offer)
    (envs : Nat → EnvChoice)
    (halive : ∀ oid ∈ (dictGet m.offers_by_resource resource).getD [],
      ∃ o, offers oid = some o ∧ o.deal.main_given.isSome) :
    ∃ n effs,
      m.search instant location resource requester offers = some (n, effs) ∧
      n = ((dictGet m.offers_by_resource resource).getD []).length ∧
      effectsEventualCount requester envs effs 0 = some n := by
  cases hd : dictGet m.offers_by_resource resource with
  | none => exact ⟨0, [], by simp [Market.search, hd], by simp [hd], rfl⟩
  | some ids =>
    rw [hd] at halive
    simp only [Option.getD_some] at halive
    obtain ⟨effs, heffs, hcnt⟩ :=
      search_loop_count instant location requester offers envs ids 0 halive
    refine ⟨ids.length, effs, ?_, by simp [hd], hcnt⟩
    have hloop : List.mapM.loop
        (fun oid => (offers oid).bind fun o =>
          o.evaluate instant location requester) ids [] = some effs := heffs
    simp [Market.search, hd, hloop]

theorem market_search_expected_count_witness :
    (∀ oid ∈ (dictGet sampleMarket.offers_by_resource 3).getD [],
      ∃ o, (fun oid2 => if oid2 = 11 then some sampleOffer else none) oid = some o ∧
        o.deal.main_given.isSome) ∧
    ∃ n effs,
      sampleMarket.search 9 7 3 5
        (fun oid2 => if oid2 = 11 then some sampleOffer else none) = some (n, effs) ∧
      n = ((dictGet sampleMarket.offers_by_resource 3).getD []).length ∧
      effectsEventualCount 5 (fun _ => sampleEnv) effs 0 = some n := by
  have halive : ∀ oid ∈ (dictGet sampleMarket.offers_by_resource 3).getD [],
      ∃ o, (fun oid2 => if oid2 = 11 then some sampleOffer else none) oid = some o ∧
        o.deal.main_given.isSome := by
    intro oid hm
    have h11 : oid ∈ [11] := hm
    have : oid = 11 := by simpa using h11
    subst this
    exact ⟨sampleOffer, rfl, by decide⟩
  exact ⟨halive,
    market_search_expected_count sampleMarket 9 7 3 5 _ (fun _ => sampleEnv) halive⟩
